import Mathlib

/-!
# LIS3DH accelerometer poller (`src/controller/main.c`)

A shallow embedding of the firmware in `main.c`: the two driver routines
`lis3dh_init` and `lis3dh_read_xyz`, and `main` with its sampling loop.

Calls into the board SDK and the C library (`i2c_write_blocking`, `sleep_ms`,
`printf`, ...) are recorded, in program order, in a trace of `Action`s.  What the
two-wire bus answers is not decided by the program, so it is a parameter: a
`Bus` gives, for every history of actions, the return code of a transfer and
the bytes found in the destination buffer after a read.
-/

namespace Lis3dh

/-! ## Machine integers -/

/-- An `uint8_t`: a value in `0 .. 255`. -/
abbrev uint8_t := Fin 256

/-- The conversion `(int16_t) v` of an `int` value: reduction modulo `2^16`
into `-32768 .. 32767` (two's complement, as on the target). -/
def int16_cast (v : Int) : Int := (v + 32768) % 65536 - 32768

/-! ## Constants of `main.c` -/

/-- The constant `#define LIS3DH_ADDR 0x18`. -/
def LIS3DH_ADDR : Nat := 0x18

/-- The constant `#define LIS3DH_CTRL_REG1 0x20`. -/
def LIS3DH_CTRL_REG1 : uint8_t := 0x20

/-- The constant `#define LIS3DH_OUT_X_L 0x28`. -/
def LIS3DH_OUT_X_L : uint8_t := 0x28

/-- The constant `#define LIS3DH_OUT_X_L_AUTO 0xA8`. -/
def LIS3DH_OUT_X_L_AUTO : uint8_t := 0xA8

/-! ## Decoding (lines 28-35 of `lis3dh_read_xyz`) -/

/-- The local array `uint8_t buffer[6]` of `lis3dh_read_xyz`. -/
structure Buffer6 where
  b0 : uint8_t
  b1 : uint8_t
  b2 : uint8_t
  b3 : uint8_t
  b4 : uint8_t
  b5 : uint8_t
deriving DecidableEq

/-- The three output slots `*x`, `*y`, `*z` (each an `int16_t`). -/
structure Sample where
  x : Int
  y : Int
  z : Int
deriving DecidableEq

/-- One axis: `*x = (int16_t)((hi << 8) | lo);` followed by `*x >>= 6;`.
The bytes are promoted to `int` before the shift and the or, so the value
cast is in `0 .. 65535`; the compound assignment shifts the promoted value
(the target compiler shifts a negative `int` arithmetically, which is what
the shift of `Int` by a `Nat` does) and stores it back into an `int16_t`. -/
def decode_axis (lo hi : uint8_t) : Int :=
  let v : Int := int16_cast (((hi.val <<< 8) ||| lo.val : Nat) : Int)
  int16_cast (v >>> (6 : Nat))

/-- Lines 28-35 of `lis3dh_read_xyz`: the three axes from the six bytes. -/
def decode_xyz (buffer : Buffer6) : Sample :=
  { x := decode_axis buffer.b0 buffer.b1
    y := decode_axis buffer.b2 buffer.b3
    z := decode_axis buffer.b4 buffer.b5 }

/-- The two's-complement signed reading of a 16-bit value, as the
specification words it: values from `32768` up stand for `v - 65536`. -/
def s16 (v : Nat) : Int := if v % 65536 < 32768 then (v % 65536 : Nat) else ((v % 65536 : Nat) : Int) - 65536

/-- Clearing the six least-significant bits of a byte: `b & 0xC0`. -/
def mask_low6 (b : uint8_t) : uint8_t :=
  ⟨b.val &&& 0xC0, lt_of_le_of_lt Nat.and_le_left b.isLt⟩

/-! ## Hardware actions and the bus -/

/-- The two I2C blocks of the board; `main` uses `i2c0` only. -/
inductive i2c_inst_t where
  | i2c0
  | i2c1
deriving DecidableEq

/-- Pin functions of the board SDK; `main` uses `GPIO_FUNC_I2C` only. -/
inductive gpio_function where
  | GPIO_FUNC_XIP
  | GPIO_FUNC_SPI
  | GPIO_FUNC_UART
  | GPIO_FUNC_I2C
  | GPIO_FUNC_PWM
  | GPIO_FUNC_SIO
  | GPIO_FUNC_NULL
deriving DecidableEq

/-- One call into the SDK or the C library, with the arguments it was given.
`printf` carries the text that reached the console. -/
inductive Action where
  | stdio_init_all
  | i2c_init (i2c : i2c_inst_t) (baudrate : Nat)
  | gpio_set_function (gpio : Nat) (fn : gpio_function)
  | gpio_pull_up (gpio : Nat)
  | sleep_ms (ms : Nat)
  | printf (text : String)
  | i2c_write_blocking (i2c : i2c_inst_t) (addr : Nat) (src : List uint8_t) (nostop : Bool)
  | i2c_read_blocking (i2c : i2c_inst_t) (addr : Nat) (len : Nat) (nostop : Bool)
deriving DecidableEq

/-- The actions performed so far, oldest first. -/
abbrev Trace := List Action

/-- What the bus answers.  Each answer may depend on everything done so far
(the history passed in ends with the call being answered): the `int` a
blocking write returns, the `int` a blocking read returns, and the contents
of the six-byte destination buffer once the read call is over. -/
structure Bus where
  write_ret : Trace → Int
  read_ret : Trace → Int
  read_buf : Trace → Buffer6

/-- SDK call `stdio_init_all()`. -/
def stdio_init_all (t : Trace) : Trace := t ++ [Action.stdio_init_all]

/-- SDK call `i2c_init(i2c, baudrate)`. -/
def i2c_init (t : Trace) (i2c : i2c_inst_t) (baudrate : Nat) : Trace :=
  t ++ [Action.i2c_init i2c baudrate]

/-- SDK call `gpio_set_function(gpio, fn)`. -/
def gpio_set_function (t : Trace) (gpio : Nat) (fn : gpio_function) : Trace :=
  t ++ [Action.gpio_set_function gpio fn]

/-- SDK call `gpio_pull_up(gpio)`. -/
def gpio_pull_up (t : Trace) (gpio : Nat) : Trace := t ++ [Action.gpio_pull_up gpio]

/-- SDK call `sleep_ms(ms)`. -/
def sleep_ms (t : Trace) (ms : Nat) : Trace := t ++ [Action.sleep_ms ms]

/-- Library call `printf` with the text it produces. -/
def printf (t : Trace) (text : String) : Trace := t ++ [Action.printf text]

/-- SDK call `i2c_write_blocking(i2c, addr, src, len, nostop)`, `src` holding
the `len` bytes: the `int` result and the extended trace. -/
def i2c_write_blocking (bus : Bus) (t : Trace) (i2c : i2c_inst_t) (addr : Nat)
    (src : List uint8_t) (nostop : Bool) : Int × Trace :=
  let t1 := t ++ [Action.i2c_write_blocking i2c addr src nostop]
  (bus.write_ret t1, t1)

/-- SDK call `i2c_read_blocking(i2c, addr, buffer, len, nostop)` into the
six-byte `buffer`: the `int` result, the buffer afterwards, and the extended
trace. -/
def i2c_read_blocking (bus : Bus) (t : Trace) (i2c : i2c_inst_t) (addr : Nat)
    (len : Nat) (nostop : Bool) : (Int × Buffer6) × Trace :=
  let t1 := t ++ [Action.i2c_read_blocking i2c addr len nostop]
  ((bus.read_ret t1, bus.read_buf t1), t1)

/-! ## The driver -/

/-- The routine `void lis3dh_init(i2c_inst_t *i2c)`.  The result of the write
is dropped, and the routine returns nothing. -/
def lis3dh_init (bus : Bus) (i2c : i2c_inst_t) (t : Trace) : Trace :=
  let data : List uint8_t := [LIS3DH_CTRL_REG1, 0x57]
  let w := i2c_write_blocking bus t i2c LIS3DH_ADDR data false
  w.2

/-- The routine `void lis3dh_read_xyz(i2c_inst_t *i2c, int16_t *x, int16_t *y,
int16_t *z)`: what it leaves in the three slots, and the extended trace.  The
results of both transfers are dropped. -/
def lis3dh_read_xyz (bus : Bus) (i2c : i2c_inst_t) (t : Trace) : Sample × Trace :=
  let reg : uint8_t := LIS3DH_OUT_X_L_AUTO
  let w := i2c_write_blocking bus t i2c LIS3DH_ADDR [reg] true
  let r := i2c_read_blocking bus w.2 i2c LIS3DH_ADDR 6 false
  (decode_xyz r.1.2, r.2)

/-! ## Console text -/

/-- The conversion `%d` of `printf`: an optional minus sign and the decimal
digits of the magnitude. -/
def fmt_d (v : Int) : List Char :=
  if v < 0 then '-' :: Nat.toDigits 10 v.natAbs else Nat.toDigits 10 v.natAbs

/-- The text of `printf("%d,%d,%d\n", x, y, z)`. -/
def fmt_xyz (x y z : Int) : String :=
  String.mk (fmt_d x ++ ',' :: (fmt_d y ++ ',' :: (fmt_d z ++ ['\n'])))

/-- Everything written to the console along a trace. -/
def console : Trace → List Char
  | [] => []
  | Action.printf text :: t => text.data ++ console t
  | _ :: t => console t

/-- The lines of a console text: each run of characters up to a newline, and
a last unterminated run if there is one. -/
def linesOf : List Char → List (List Char)
  | [] => []
  | c :: cs =>
    if c = '\n' then [] :: linesOf cs
    else
      match linesOf cs with
      | [] => [[c]]
      | l :: ls => (c :: l) :: ls

/-- Dropping a leading run of decimal digits. -/
def dropDigits : List Char → List Char
  | [] => []
  | c :: cs => if c.isDigit then dropDigits cs else c :: cs

/-- Matching `-?\d+` at the front of a text: what is left after it. -/
def matchSigned (s : List Char) : Option (List Char) :=
  let body := match s with
    | [] => s
    | c :: r => if c = '-' then r else s
  match body with
  | [] => none
  | c :: cs => if c.isDigit then some (dropDigits cs) else none

/-- Matching `,` at the front of a text: what is left after it. -/
def matchComma : List Char → Option (List Char)
  | [] => none
  | c :: r => if c = ',' then some r else none

/-- A whole line matches `-?\d+,-?\d+,-?\d+`. -/
def matchesPattern (s : List Char) : Bool :=
  decide (((((matchSigned s).bind matchComma).bind matchSigned).bind matchComma).bind
    matchSigned = some [])

/-- The console text made of the given lines, each ended by a newline. -/
def textOf : List (List Char) → List Char
  | [] => []
  | l :: ls => l ++ '\n' :: textOf ls

/-! ## The program -/

/-- The part of `main` before the loop (lines 39-51). -/
def main_startup (bus : Bus) : Trace :=
  let t := stdio_init_all []
  let t := i2c_init t i2c_inst_t.i2c0 (400 * 1000)
  let t := gpio_set_function t 0 gpio_function.GPIO_FUNC_I2C
  let t := gpio_set_function t 1 gpio_function.GPIO_FUNC_I2C
  let t := gpio_pull_up t 0
  let t := gpio_pull_up t 1
  let t := sleep_ms t 2000
  let t := printf t "LIS3DH Test\n"
  lis3dh_init bus i2c_inst_t.i2c0 t

/-- One pass through the body of `while (true)` (lines 56-58). -/
def main_loop_body (bus : Bus) (t : Trace) : Trace :=
  let r := lis3dh_read_xyz bus i2c_inst_t.i2c0 t
  let t := printf r.2 (fmt_xyz r.1.x r.1.y r.1.z)
  sleep_ms t 100

/-- The trace of `main` at the moment its loop has completed `n` passes.  The
loop condition is the constant `true` and the body has no `break` and no
`return`, so every pass is followed by another one. -/
def main (bus : Bus) : Nat → Trace
  | 0 => main_startup bus
  | n + 1 => main_loop_body bus (main bus n)

/-- The address write of a read operation: the single byte `0xA8`, bus held. -/
def read_addr_write : Action :=
  Action.i2c_write_blocking i2c_inst_t.i2c0 0x18 [0xA8] true

/-- The data read of a read operation: six bytes, bus released. -/
def read_six : Action :=
  Action.i2c_read_blocking i2c_inst_t.i2c0 0x18 6 false

/-- The configuration write: the two bytes `[0x20, 0x57]`, bus released. -/
def config_write : Action :=
  Action.i2c_write_blocking i2c_inst_t.i2c0 0x18 [0x20, 0x57] false

/-- The buffer the bus hands to a read operation started after history `t`. -/
def pass_buffer (bus : Bus) (t : Trace) : Buffer6 :=
  bus.read_buf (t ++ [read_addr_write, read_six])

/-- The console line of a pass, without its newline: the three values decoded
from the buffer of that pass, in decimal, separated by commas. -/
def pass_line (bus : Bus) (t : Trace) : List Char :=
  let v := decode_xyz (pass_buffer bus t)
  fmt_d v.x ++ ',' :: (fmt_d v.y ++ ',' :: fmt_d v.z)

/-- One pass of the sampling loop as the specification describes it: a read
operation, a console line for the values just decoded, a sleep of 100 ms. -/
def pass_actions (bus : Bus) (t : Trace) : List Action :=
  [read_addr_write, read_six, Action.printf (String.mk (pass_line bus t ++ ['\n'])),
    Action.sleep_ms 100]

/-- The sample lines of the first `n` passes of the loop of `main`. -/
def sample_lines (bus : Bus) : Nat → List (List Char)
  | 0 => []
  | n + 1 => sample_lines bus n ++ [pass_line bus (main bus n)]

/-- The actions of the first `n` passes of the loop of `main`, pass by pass. -/
def loop_actions (bus : Bus) : Nat → List Action
  | 0 => []
  | n + 1 => loop_actions bus n ++ pass_actions bus (main bus n)

/-- A bus on which every transfer reports success and every byte read is 0. -/
def quietBus : Bus :=
  { write_ret := fun _ => 1
    read_ret := fun _ => 6
    read_buf := fun _ => ⟨0, 0, 0, 0, 0, 0⟩ }

/-- A bus on which every transfer reports the SDK's generic error and every
byte read is 0. -/
def failingBus : Bus :=
  { write_ret := fun _ => -2
    read_ret := fun _ => -2
    read_buf := fun _ => ⟨0, 0, 0, 0, 0, 0⟩ }

/-- A bus on which every transfer reports success and every read leaves the
bytes `00 04 00 08 00 0C` in the buffer. -/
def exampleBus : Bus :=
  { write_ret := fun _ => 1
    read_ret := fun _ => 6
    read_buf := fun _ => ⟨0x00, 0x04, 0x00, 0x08, 0x00, 0x0C⟩ }

/-- The buffer the bus hands to `lis3dh_read_xyz bus i2c` called after
history `t`. -/
def returned_buffer (bus : Bus) (i2c : i2c_inst_t) (t : Trace) : Buffer6 :=
  bus.read_buf (t ++ [Action.i2c_write_blocking i2c 0x18 [0xA8] true,
    Action.i2c_read_blocking i2c 0x18 6 false])

/-- The console texts written along a trace, one entry per `printf`. -/
def printed : Trace → List String
  | [] => []
  | Action.printf text :: t => text :: printed t
  | _ :: t => printed t

/-- An action is a bus write whose payload is the two bytes `[0x20, 0x57]`. -/
def isConfigWrite : Action → Bool
  | Action.i2c_write_blocking _ _ src _ => decide (src = [0x20, 0x57])
  | _ => false

/-- A bus on which every transfer reports success and every read leaves the
given six bytes in the buffer. -/
def constBus (b : Buffer6) : Bus :=
  { write_ret := fun _ => 1
    read_ret := fun _ => 6
    read_buf := fun _ => b }

/-- A buffer with the six low bits of each low byte cleared: `b[0] & 0xC0`,
`b[2] & 0xC0` and `b[4] & 0xC0`, the high bytes as they are. -/
def mask_buffer (b : Buffer6) : Buffer6 :=
  { b0 := mask_low6 b.b0
    b1 := b.b1
    b2 := mask_low6 b.b2
    b3 := b.b3
    b4 := mask_low6 b.b4
    b5 := b.b5 }

/-- The bus that answers like `bus`, except that every buffer it hands back has
the six low bits of each low byte cleared. -/
def mask_bus (bus : Bus) : Bus :=
  { write_ret := bus.write_ret
    read_ret := bus.read_ret
    read_buf := fun t => mask_buffer (bus.read_buf t) }

/-- A transfer of the trace is a six-byte read. -/
def isRead : Action → Bool
  | Action.i2c_read_blocking _ _ _ _ => true
  | _ => false

/-- An action is a console write. -/
def isPrint : Action → Bool
  | Action.printf _ => true
  | _ => false

/-- An action is a sleep. -/
def isSleep : Action → Bool
  | Action.sleep_ms _ => true
  | _ => false

/-! ## Arithmetic of the decode -/

theorem raw_or_eq (lo hi : uint8_t) : (hi.val <<< 8) ||| lo.val = hi.val * 256 + lo.val := by
  have h := @Nat.mul_add_lt_is_or 8 lo.val (by simp) hi.val
  rw [Nat.shiftLeft_eq]
  rw [show hi.val * 2 ^ 8 = 2 ^ 8 * hi.val by ring, ← h]
  ring

theorem decode_axis_eq (lo hi : uint8_t) :
    decode_axis lo hi = s16 (hi.val * 256 + lo.val) / 64 := by
  have hl := lo.isLt
  have hh := hi.isLt
  have hs : ∀ m : Int, m >>> (6 : Nat) = m / 64 := fun m => by
    rw [Int.shiftRight_eq_div_pow]; norm_num
  unfold decode_axis
  simp only [raw_or_eq, hs, int16_cast, s16]
  push_cast
  split_ifs <;> omega

theorem decode_axis_floor (lo hi : uint8_t) :
    decode_axis lo hi = ⌊((s16 (hi.val * 256 + lo.val) : Int) : ℚ) / 64⌋ := by
  rw [decode_axis_eq]
  have h := Rat.floor_intCast_div_natCast (s16 (hi.val * 256 + lo.val)) 64
  simpa using h.symm

/-! ## Traces of the driver and of the loop -/

theorem lis3dh_init_trace (bus : Bus) (i2c : i2c_inst_t) (t : Trace) :
    lis3dh_init bus i2c t = t ++ [Action.i2c_write_blocking i2c 0x18 [0x20, 0x57] false] := rfl

theorem lis3dh_read_xyz_trace (bus : Bus) (i2c : i2c_inst_t) (t : Trace) :
    (lis3dh_read_xyz bus i2c t).2 =
      t ++ [Action.i2c_write_blocking i2c 0x18 [0xA8] true,
            Action.i2c_read_blocking i2c 0x18 6 false] := by
  simp [lis3dh_read_xyz, i2c_write_blocking, i2c_read_blocking, LIS3DH_ADDR,
    LIS3DH_OUT_X_L_AUTO]

theorem lis3dh_read_xyz_value (bus : Bus) (t : Trace) :
    (lis3dh_read_xyz bus i2c_inst_t.i2c0 t).1 = decode_xyz (pass_buffer bus t) := by
  simp [lis3dh_read_xyz, i2c_write_blocking, i2c_read_blocking, LIS3DH_ADDR,
    LIS3DH_OUT_X_L_AUTO, pass_buffer, read_addr_write, read_six]

theorem main_loop_body_eq (bus : Bus) (t : Trace) :
    main_loop_body bus t = t ++ pass_actions bus t := by
  simp [main_loop_body, printf, sleep_ms, lis3dh_read_xyz_trace, lis3dh_read_xyz_value,
    pass_actions, pass_line, fmt_xyz, read_addr_write, read_six]

theorem main_startup_eq (bus : Bus) :
    main_startup bus =
      [Action.stdio_init_all,
       Action.i2c_init i2c_inst_t.i2c0 400000,
       Action.gpio_set_function 0 gpio_function.GPIO_FUNC_I2C,
       Action.gpio_set_function 1 gpio_function.GPIO_FUNC_I2C,
       Action.gpio_pull_up 0,
       Action.gpio_pull_up 1,
       Action.sleep_ms 2000,
       Action.printf "LIS3DH Test\n",
       config_write] := rfl

theorem lis3dh_read_xyz_fst (bus : Bus) (i2c : i2c_inst_t) (t : Trace) :
    (lis3dh_read_xyz bus i2c t).1 =
      decode_xyz (bus.read_buf (t ++ [Action.i2c_write_blocking i2c 0x18 [0xA8] true,
        Action.i2c_read_blocking i2c 0x18 6 false])) := by
  simp [lis3dh_read_xyz, i2c_write_blocking, i2c_read_blocking, LIS3DH_ADDR,
    LIS3DH_OUT_X_L_AUTO]

theorem decode_axis_bounds (lo hi : uint8_t) :
    -512 ≤ decode_axis lo hi ∧ decode_axis lo hi ≤ 511 := by
  have hl := lo.isLt
  have hh := hi.isLt
  rw [decode_axis_eq]
  unfold s16
  push_cast
  split_ifs <;> omega

theorem decode_axis_neg_iff (lo hi : uint8_t) :
    decode_axis lo hi < 0 ↔ hi.val.testBit 7 = true := by
  have hl := lo.isLt
  have hh := hi.isLt
  rw [decode_axis_eq, Nat.testBit_to_div_mod]
  unfold s16
  simp only [decide_eq_true_eq]
  push_cast
  split_ifs <;> omega

set_option maxRecDepth 100000 in
theorem and_192 : ∀ n, n < 256 → n &&& 0xC0 = n / 64 * 64 := by decide

theorem decode_axis_mask (lo hi : uint8_t) :
    decode_axis (mask_low6 lo) hi = decode_axis lo hi := by
  have hl := lo.isLt
  have hh := hi.isLt
  have hm : (mask_low6 lo).val = lo.val / 64 * 64 := and_192 lo.val hl
  rw [decode_axis_eq, decode_axis_eq, hm]
  unfold s16
  push_cast
  split_ifs <;> omega

theorem main_succ (bus : Bus) (n : Nat) :
    main bus (n + 1) = main bus n ++ pass_actions bus (main bus n) := by
  rw [main, main_loop_body_eq]

theorem main_eq_loop_actions (bus : Bus) (n : Nat) :
    main bus n = main_startup bus ++ loop_actions bus n := by
  induction n with
  | zero => simp [main, loop_actions]
  | succ k ih => rw [main_succ, loop_actions, ← List.append_assoc, ← ih]

/-! ## Decimal text -/

theorem digitChar_isDigit : ∀ m, m < 10 → (Nat.digitChar m).isDigit = true := by decide

theorem toDigitsCore_isDigit (fuel : Nat) : ∀ (n : Nat) (ds : List Char),
    (∀ c ∈ ds, c.isDigit = true) →
      ∀ c ∈ Nat.toDigitsCore 10 fuel n ds, c.isDigit = true := by
  induction fuel with
  | zero => intro n ds h; simpa [Nat.toDigitsCore] using h
  | succ f ih =>
    intro n ds h
    have hd : (Nat.digitChar (n % 10)).isDigit = true :=
      digitChar_isDigit _ (Nat.mod_lt _ (by norm_num))
    have hcons : ∀ c ∈ Nat.digitChar (n % 10) :: ds, c.isDigit = true := by
      intro c hc
      rcases List.mem_cons.mp hc with rfl | hc
      · exact hd
      · exact h c hc
    simp only [Nat.toDigitsCore]
    split_ifs
    · exact hcons
    · exact ih _ _ hcons

theorem toDigitsCore_ne_nil (fuel : Nat) : ∀ (n : Nat) (ds : List Char),
    ds ≠ [] → Nat.toDigitsCore 10 fuel n ds ≠ [] := by
  induction fuel with
  | zero => intro n ds h; simpa [Nat.toDigitsCore] using h
  | succ f ih =>
    intro n ds _
    simp only [Nat.toDigitsCore]
    split_ifs
    · simp
    · exact ih _ _ (by simp)

theorem toDigits_isDigit (n : Nat) : ∀ c ∈ Nat.toDigits 10 n, c.isDigit = true :=
  toDigitsCore_isDigit _ _ _ (by simp)

theorem toDigits_ne_nil (n : Nat) : Nat.toDigits 10 n ≠ [] := by
  unfold Nat.toDigits
  simp only [Nat.toDigitsCore]
  split_ifs
  · simp
  · exact toDigitsCore_ne_nil _ _ _ (by simp)

/-- A text at which a run of digits ends: empty, or starting with a character
that is not a digit. -/
def stops (r : List Char) : Prop := ∀ c ∈ r.head?, c.isDigit = false

theorem dropDigits_append (ds r : List Char) (hds : ∀ c ∈ ds, c.isDigit = true)
    (hr : stops r) : dropDigits (ds ++ r) = r := by
  induction ds with
  | nil =>
    cases r with
    | nil => rfl
    | cons c cs =>
      have hc : c.isDigit = false := hr c (by simp)
      simp [dropDigits, hc]
  | cons d ds ih =>
    have hd : d.isDigit = true := hds d (by simp)
    simp only [List.cons_append, dropDigits, hd, if_true]
    exact ih (fun c hc => hds c (List.mem_cons_of_mem _ hc))

theorem matchSigned_digits (ds r : List Char) (hne : ds ≠ [])
    (hds : ∀ c ∈ ds, c.isDigit = true) (hr : stops r) :
    matchSigned (ds ++ r) = some r ∧ matchSigned ('-' :: (ds ++ r)) = some r := by
  cases ds with
  | nil => exact absurd rfl hne
  | cons d ds =>
    have hd : d.isDigit = true := hds d (by simp)
    have hminus : d ≠ '-' := by
      rintro rfl
      exact absurd hd (by decide)
    have hrest := dropDigits_append ds r (fun c hc => hds c (List.mem_cons_of_mem _ hc)) hr
    constructor
    · simp [matchSigned, hminus, hd, hrest]
    · simp [matchSigned, hd, hrest]

theorem matchSigned_fmt_d (v : Int) (r : List Char) (hr : stops r) :
    matchSigned (fmt_d v ++ r) = some r := by
  have h := matchSigned_digits (Nat.toDigits 10 v.natAbs) r (toDigits_ne_nil _)
    (toDigits_isDigit _) hr
  unfold fmt_d
  split_ifs
  · simpa using h.2
  · exact h.1

theorem matchesPattern_fmt (x y z : Int) :
    matchesPattern (fmt_d x ++ ',' :: (fmt_d y ++ ',' :: fmt_d z)) = true := by
  have hc : ∀ r : List Char, stops (',' :: r) := by
    intro r c hc
    simp at hc
    subst hc
    decide
  have hn : stops [] := by intro c hc; simp at hc
  have hz := matchSigned_fmt_d z [] hn
  rw [List.append_nil] at hz
  simp [matchesPattern, matchSigned_fmt_d _ _ (hc _), matchComma, hz]

theorem fmt_d_no_newline (v : Int) : '\n' ∉ fmt_d v := by
  intro h
  have hd : ∀ c ∈ Nat.toDigits 10 v.natAbs, c ≠ '\n' := by
    intro c hc he
    have := toDigits_isDigit _ c hc
    rw [he] at this
    exact absurd this (by decide)
  unfold fmt_d at h
  split_ifs at h
  · rcases List.mem_cons.mp h with h | h
    · exact absurd h (by decide)
    · exact hd _ h rfl
  · exact hd _ h rfl

theorem pass_line_no_newline (bus : Bus) (t : Trace) : '\n' ∉ pass_line bus t := by
  intro h
  simp only [pass_line, List.mem_append, List.mem_cons] at h
  rcases h with h | h | h | h | h
  · exact fmt_d_no_newline _ h
  · exact absurd h (by decide)
  · exact fmt_d_no_newline _ h
  · exact absurd h (by decide)
  · exact fmt_d_no_newline _ h

/-! ## Console text and its lines -/

theorem console_append (a b : Trace) : console (a ++ b) = console a ++ console b := by
  induction a with
  | nil => rfl
  | cons x xs ih => cases x <;> simp [console, ih]

theorem textOf_append (a b : List (List Char)) : textOf (a ++ b) = textOf a ++ textOf b := by
  induction a with
  | nil => rfl
  | cons x xs ih => simp [textOf, ih]

theorem linesOf_line (l r : List Char) (h : '\n' ∉ l) :
    linesOf (l ++ '\n' :: r) = l :: linesOf r := by
  induction l with
  | nil => simp [linesOf]
  | cons c cs ih =>
    have hc : c ≠ '\n' := fun e => h (by simp [e])
    have hcs : '\n' ∉ cs := fun e => h (List.mem_cons_of_mem _ e)
    simp [linesOf, hc, ih hcs]

theorem linesOf_textOf (ls : List (List Char)) (h : ∀ l ∈ ls, '\n' ∉ l) :
    linesOf (textOf ls) = ls := by
  induction ls with
  | nil => rfl
  | cons l ls ih =>
    rw [textOf, linesOf_line l _ (h l (by simp)), ih (fun l hl => h l (List.mem_cons_of_mem _ hl))]

theorem console_pass_actions (bus : Bus) (t : Trace) :
    console (pass_actions bus t) = pass_line bus t ++ ['\n'] := by
  simp [pass_actions, console, read_addr_write, read_six]

theorem console_main (bus : Bus) (n : Nat) :
    console (main bus n) = "LIS3DH Test".data ++ '\n' :: textOf (sample_lines bus n) := by
  induction n with
  | zero => rfl
  | succ k ih =>
    rw [main_succ, console_append, ih, console_pass_actions, sample_lines, textOf_append]
    simp [textOf]

theorem sample_lines_length (bus : Bus) (n : Nat) : (sample_lines bus n).length = n := by
  induction n with
  | zero => rfl
  | succ k ih => simp [sample_lines, ih]

theorem sample_lines_mem (bus : Bus) (n : Nat) :
    ∀ l ∈ sample_lines bus n, ∃ t, l = pass_line bus t := by
  induction n with
  | zero => intro l hl; simp [sample_lines] at hl
  | succ k ih =>
    intro l hl
    simp only [sample_lines, List.mem_append, List.mem_singleton] at hl
    rcases hl with hl | hl
    · exact ih l hl
    · exact ⟨_, hl⟩

theorem linesOf_console_main (bus : Bus) (n : Nat) :
    linesOf (console (main bus n)) = "LIS3DH Test".data :: sample_lines bus n := by
  have hb : '\n' ∉ "LIS3DH Test".data := by decide
  rw [console_main, linesOf_line _ _ hb, linesOf_textOf]
  intro l hl
  obtain ⟨t, ht⟩ := sample_lines_mem bus n l hl
  rw [ht]
  exact pass_line_no_newline bus t

theorem main_length (bus : Bus) (n : Nat) : (main bus n).length = 9 + 4 * n := by
  induction n with
  | zero => rfl
  | succ k ih =>
    rw [main_succ, List.length_append, ih]
    simp [pass_actions]
    omega

theorem main_add (bus : Bus) (k : Nat) :
    ∀ m, ∃ r, main bus (k + 1 + m) = main bus k ++ (pass_actions bus (main bus k) ++ r) := by
  intro m
  induction m with
  | zero => exact ⟨[], by rw [Nat.add_zero, main_succ, List.append_nil]⟩
  | succ j ih =>
    obtain ⟨r, hr⟩ := ih
    refine ⟨r ++ pass_actions bus (main bus (k + 1 + j)), ?_⟩
    rw [← Nat.add_assoc, main_succ, hr]
    simp [List.append_assoc]

theorem main_block (bus : Bus) (n k : Nat) (hk : k < n) :
    ((main bus n).drop (9 + 4 * k)).take 4 = pass_actions bus (main bus k) := by
  obtain ⟨m, rfl⟩ : ∃ m, n = k + 1 + m := ⟨n - (k + 1), by omega⟩
  obtain ⟨r, hr⟩ := main_add bus k m
  rw [hr, List.drop_left' (main_length bus k)]
  exact List.take_left' (by simp [pass_actions])

theorem loop_actions_counts (bus : Bus) (n : Nat) :
    (loop_actions bus n).countP isRead = n ∧ (loop_actions bus n).countP isPrint = n ∧
      (loop_actions bus n).countP isSleep = n ∧
      (loop_actions bus n).countP isConfigWrite = 0 := by
  induction n with
  | zero => simp [loop_actions]
  | succ k ih =>
    obtain ⟨h1, h2, h3, h4⟩ := ih
    simp [loop_actions, List.countP_append, h1, h2, h3, h4, pass_actions, isRead, isPrint,
      isSleep, isConfigWrite, read_addr_write, read_six, List.countP_cons]

/-! ## Checks on concrete inputs -/

theorem fmt_xyz_samples :
    fmt_xyz 16 32 48 = "16,32,48\n" ∧ fmt_xyz (-16) 0 511 = "-16,0,511\n" := by decide

theorem matchesPattern_samples :
    matchesPattern "16,32,48".data = true ∧ matchesPattern "-16,0,-511".data = true ∧
      matchesPattern "LIS3DH Test".data = false ∧ matchesPattern "16,32,".data = false ∧
      matchesPattern "16,32,48,".data = false ∧ matchesPattern "1,-,3".data = false ∧
      matchesPattern "1,2".data = false := by decide

theorem linesOf_sample :
    linesOf "LIS3DH Test\n1,2,3\n".data = ["LIS3DH Test".data, "1,2,3".data] := by decide

/-! ## The claims -/

/-- C1: whatever six bytes `b[0..5]` the bus read leaves in the buffer,
`lis3dh_read_xyz` stores `x = floor(s16(b[1]*256 + b[0]) / 64)`,
`y = floor(s16(b[3]*256 + b[2]) / 64)` and `z = floor(s16(b[5]*256 + b[4]) / 64)`:
each axis is the little-endian signed 16-bit value of its own byte pair,
shifted right arithmetically by 6 bits.  The byte pair `[0x00, 0x04]` gives 16. -/
theorem C1_read_xyz_decodes (bus : Bus) (i2c : i2c_inst_t) (t : Trace) :
    (lis3dh_read_xyz bus i2c t).1 =
      { x := ⌊((s16 ((returned_buffer bus i2c t).b1.val * 256 +
                (returned_buffer bus i2c t).b0.val) : Int) : ℚ) / 64⌋
        y := ⌊((s16 ((returned_buffer bus i2c t).b3.val * 256 +
                (returned_buffer bus i2c t).b2.val) : Int) : ℚ) / 64⌋
        z := ⌊((s16 ((returned_buffer bus i2c t).b5.val * 256 +
                (returned_buffer bus i2c t).b4.val) : Int) : ℚ) / 64⌋ } ∧
      decode_xyz ⟨0x00, 0x04, 0x00, 0x04, 0x00, 0x04⟩ = ⟨16, 16, 16⟩ := by
  refine ⟨?_, by decide⟩
  rw [lis3dh_read_xyz_fst]
  simp only [decode_xyz, decode_axis_floor, returned_buffer]

/-- C2: from every bus and every history, `lis3dh_init` performs exactly one
bus transaction: a blocking write to device address 0x18 of the two bytes
`[0x20, 0x57]`, in that order, with `nostop = false`.  It performs no read
and no other write. -/
theorem C2_init_one_write (bus : Bus) (i2c : i2c_inst_t) (t : Trace) :
    lis3dh_init bus i2c t = t ++ [Action.i2c_write_blocking i2c 0x18 [0x20, 0x57] false] :=
  lis3dh_init_trace bus i2c t

/-- C3: every call of `lis3dh_read_xyz` adds exactly two transactions to device
address 0x18, in this order: a write of the single byte 0xA8 with the bus held
(`nostop = true`), then a read of six bytes that releases the bus
(`nostop = false`); and `0xA8 = 0x28 | 0x80`. -/
theorem C3_read_two_transactions (bus : Bus) (i2c : i2c_inst_t) (t : Trace) :
    (lis3dh_read_xyz bus i2c t).2 =
        t ++ [Action.i2c_write_blocking i2c 0x18 [0xA8] true,
              Action.i2c_read_blocking i2c 0x18 6 false] ∧
      LIS3DH_OUT_X_L_AUTO.val = LIS3DH_OUT_X_L.val ||| 0x80 ∧
      LIS3DH_OUT_X_L_AUTO.val = 0xA8 :=
  ⟨lis3dh_read_xyz_trace bus i2c t, by decide, by decide⟩

/-- C4 as stated fails: on the bus `quietBus`, when the loop has completed one
pass the console holds two lines, and the first of them, `LIS3DH Test`, does
not match the pattern. -/
theorem C4_counterexample :
    ¬ ((linesOf (console (main quietBus 1))).length = 1 ∧
        ∀ l ∈ linesOf (console (main quietBus 1)), matchesPattern l = true) := by
  decide

/-- C4, amended: for every `N` and every bus, when the loop of `main` has
completed `N` passes the console output consists of the line `LIS3DH Test`
followed by exactly `N` lines, each of which matches `-?\d+,-?\d+,-?\d+`. -/
theorem C4_banner_then_N_lines (bus : Bus) (N : Nat) :
    ∃ ls : List (List Char),
      linesOf (console (main bus N)) = "LIS3DH Test".data :: ls ∧
      ls.length = N ∧ ls.all matchesPattern = true := by
  refine ⟨sample_lines bus N, linesOf_console_main bus N, sample_lines_length bus N, ?_⟩
  rw [List.all_eq_true]
  intro l hl
  obtain ⟨t, ht⟩ := sample_lines_mem bus N l hl
  rw [ht]
  exact matchesPattern_fmt _ _ _

/-- C5: in every pass of the loop exactly one text is printed: the decimal
text of `x`, a comma, the decimal text of `y`, a comma, the decimal text of
`z` and a newline, where `x`, `y`, `z` are the values `lis3dh_read_xyz` stored
in that pass; and whenever the buffer of the pass is
`[0x00,0x04, 0x00,0x08, 0x00,0x0C]` the text is `16,32,48` and a newline. -/
theorem C5_printed_line (bus : Bus) (t : Trace) :
    printed ((main_loop_body bus t).drop t.length) =
        [String.mk (fmt_d (lis3dh_read_xyz bus i2c_inst_t.i2c0 t).1.x ++ [','] ++
          fmt_d (lis3dh_read_xyz bus i2c_inst_t.i2c0 t).1.y ++ [','] ++
          fmt_d (lis3dh_read_xyz bus i2c_inst_t.i2c0 t).1.z ++ ['\n'])] ∧
      (returned_buffer bus i2c_inst_t.i2c0 t = ⟨0x00, 0x04, 0x00, 0x08, 0x00, 0x0C⟩ →
        printed ((main_loop_body bus t).drop t.length) = ["16,32,48\n"]) := by
  have hp : printed ((main_loop_body bus t).drop t.length) =
      [String.mk (pass_line bus t ++ ['\n'])] := by
    rw [main_loop_body_eq, List.drop_left]
    simp [pass_actions, printed, read_addr_write, read_six]
  constructor
  · rw [hp, lis3dh_read_xyz_value]
    simp [pass_line]
  · intro hb
    have hb2 : pass_buffer bus t = ⟨0x00, 0x04, 0x00, 0x08, 0x00, 0x0C⟩ := hb
    rw [hp, pass_line, hb2]
    decide

/-- C5 at a concrete input: the bus `exampleBus` and the empty history. -/
theorem C5_printed_line_witness :
    returned_buffer exampleBus i2c_inst_t.i2c0 [] = ⟨0x00, 0x04, 0x00, 0x08, 0x00, 0x0C⟩ ∧
      printed ((main_loop_body exampleBus []).drop 0) = ["16,32,48\n"] :=
  ⟨rfl, (C5_printed_line exampleBus []).2 rfl⟩

/-- C6: the decode preserves sign: for every buffer, each stored axis value is
negative exactly when bit 7 of the high byte of its pair is set; the pair
`[0x00, 0xFC]` decodes to -16, which is not 1008. -/
theorem C6_sign_preserved (b : Buffer6) :
    ((decode_xyz b).x < 0 ↔ b.b1.val.testBit 7 = true) ∧
      ((decode_xyz b).y < 0 ↔ b.b3.val.testBit 7 = true) ∧
      ((decode_xyz b).z < 0 ↔ b.b5.val.testBit 7 = true) ∧
      decode_axis 0x00 0xFC = -16 ∧ decode_axis 0x00 0xFC ≠ 1008 :=
  ⟨decode_axis_neg_iff _ _, decode_axis_neg_iff _ _, decode_axis_neg_iff _ _,
    by decide, by decide⟩

/-- C7: transfer results are never inspected.  For two buses that may differ
in every return code but hand the same six bytes to the read,
`lis3dh_init` and `lis3dh_read_xyz` issue the same transactions and
`lis3dh_read_xyz` stores the same `x`, `y`, `z`; the six-byte read is issued
whatever the address write returned.  Neither routine has an error result:
`lis3dh_init` yields only the extended trace, `lis3dh_read_xyz` only the
sample and the extended trace. -/
theorem C7_return_codes_ignored (bus1 bus2 : Bus) (i2c : i2c_inst_t) (t : Trace)
    (h : returned_buffer bus1 i2c t = returned_buffer bus2 i2c t) :
    lis3dh_init bus1 i2c t = lis3dh_init bus2 i2c t ∧
      (lis3dh_read_xyz bus1 i2c t).2 = (lis3dh_read_xyz bus2 i2c t).2 ∧
      (lis3dh_read_xyz bus1 i2c t).1 = (lis3dh_read_xyz bus2 i2c t).1 ∧
      (lis3dh_read_xyz bus1 i2c t).2 =
        (i2c_write_blocking bus1 t i2c 0x18 [0xA8] true).2 ++
          [Action.i2c_read_blocking i2c 0x18 6 false] := by
  refine ⟨?_, ?_, ?_, ?_⟩
  · rw [lis3dh_init_trace, lis3dh_init_trace]
  · rw [lis3dh_read_xyz_trace, lis3dh_read_xyz_trace]
  · rw [lis3dh_read_xyz_fst, lis3dh_read_xyz_fst]
    exact congrArg decode_xyz h
  · rw [lis3dh_read_xyz_trace]
    simp [i2c_write_blocking]

/-- C7 at a concrete input: a bus whose transfers all succeed against a bus
whose transfers all report an error (the address write returns -2), with the
same bytes in the buffer. -/
theorem C7_return_codes_ignored_witness :
    (i2c_write_blocking quietBus [] i2c_inst_t.i2c0 0x18 [0xA8] true).1 = 1 ∧
      (i2c_write_blocking failingBus [] i2c_inst_t.i2c0 0x18 [0xA8] true).1 = -2 ∧
      returned_buffer quietBus i2c_inst_t.i2c0 [] =
        returned_buffer failingBus i2c_inst_t.i2c0 [] ∧
      (lis3dh_init quietBus i2c_inst_t.i2c0 [] = lis3dh_init failingBus i2c_inst_t.i2c0 [] ∧
        (lis3dh_read_xyz quietBus i2c_inst_t.i2c0 []).2 =
          (lis3dh_read_xyz failingBus i2c_inst_t.i2c0 []).2 ∧
        (lis3dh_read_xyz quietBus i2c_inst_t.i2c0 []).1 =
          (lis3dh_read_xyz failingBus i2c_inst_t.i2c0 []).1 ∧
        (lis3dh_read_xyz quietBus i2c_inst_t.i2c0 []).2 =
          (i2c_write_blocking quietBus [] i2c_inst_t.i2c0 0x18 [0xA8] true).2 ++
            [Action.i2c_read_blocking i2c_inst_t.i2c0 0x18 6 false]) :=
  ⟨rfl, rfl, rfl, C7_return_codes_ignored quietBus failingBus i2c_inst_t.i2c0 [] rfl⟩

/-- C8 as stated fails: the first action of `main` is `stdio_init_all`, so
the trace does not begin with the bus initialisation. -/
theorem C8_counterexample :
    (main quietBus 0).head? = some Action.stdio_init_all ∧
      ¬ ∃ rest, main quietBus 0 =
        [Action.i2c_init i2c_inst_t.i2c0 400000,
         Action.gpio_set_function 0 gpio_function.GPIO_FUNC_I2C,
         Action.gpio_set_function 1 gpio_function.GPIO_FUNC_I2C,
         Action.gpio_pull_up 0,
         Action.gpio_pull_up 1,
         Action.sleep_ms 2000,
         Action.printf "LIS3DH Test\n"] ++ rest := by
  refine ⟨rfl, ?_⟩
  rintro ⟨rest, h⟩
  have hh : some Action.stdio_init_all = some (Action.i2c_init i2c_inst_t.i2c0 400000) :=
    congrArg List.head? h
  exact absurd hh (by decide)

/-- C8, amended: in every execution of `main` the trace begins with the
console initialisation `stdio_init_all`, then the bus initialisation at
400000 Hz, pins 0 and 1 set to the I2C function, their pull-ups enabled, a
2000 ms sleep, and only then the first console message, followed by the
configuration write `[0x20, 0x57]`.  That write occurs exactly once in the
whole trace: no read precedes it and the sampling loop never repeats it. -/
theorem C8_startup_then_one_config_write (bus : Bus) (N : Nat) :
    (main bus N).take 9 =
        [Action.stdio_init_all,
         Action.i2c_init i2c_inst_t.i2c0 400000,
         Action.gpio_set_function 0 gpio_function.GPIO_FUNC_I2C,
         Action.gpio_set_function 1 gpio_function.GPIO_FUNC_I2C,
         Action.gpio_pull_up 0,
         Action.gpio_pull_up 1,
         Action.sleep_ms 2000,
         Action.printf "LIS3DH Test\n",
         Action.i2c_write_blocking i2c_inst_t.i2c0 0x18 [0x20, 0x57] false] ∧
      (main bus N).countP isConfigWrite = 1 ∧
      ((main bus N).take 9).countP isRead = 0 ∧
      ((main bus N).drop 9).countP isConfigWrite = 0 ∧
      ((main bus N).drop 9).countP isRead = N := by
  have hlen : (main_startup bus).length = 9 := rfl
  have hc := loop_actions_counts bus N
  rw [main_eq_loop_actions, List.take_left' hlen, List.drop_left' hlen, List.countP_append,
    hc.1, hc.2.2.2]
  exact ⟨rfl, rfl, rfl, rfl, rfl⟩

/-- C9: every pass of the sampling loop performs, in this order, one read
operation (write 0xA8, read six bytes), one console line for the values just
decoded, and one sleep of 100 ms.  For every `N` the trace of the first `N`
passes is `N` such blocks, with exactly `N` reads, `N` lines and `N` sleeps,
and the loop has no exit: pass `N` is always followed by pass `N + 1`. -/
theorem C9_loop_passes (bus : Bus) (N : Nat) :
    (main bus N).length = 9 + 4 * N ∧
      (∀ k, k < N → ((main bus N).drop (9 + 4 * k)).take 4 =
        [Action.i2c_write_blocking i2c_inst_t.i2c0 0x18 [0xA8] true,
         Action.i2c_read_blocking i2c_inst_t.i2c0 0x18 6 false,
         Action.printf (fmt_xyz (lis3dh_read_xyz bus i2c_inst_t.i2c0 (main bus k)).1.x
           (lis3dh_read_xyz bus i2c_inst_t.i2c0 (main bus k)).1.y
           (lis3dh_read_xyz bus i2c_inst_t.i2c0 (main bus k)).1.z),
         Action.sleep_ms 100]) ∧
      ((main bus N).drop 9).countP isRead = N ∧
      ((main bus N).drop 9).countP isPrint = N ∧
      ((main bus N).drop 9).countP isSleep = N ∧
      main bus (N + 1) = main_loop_body bus (main bus N) ∧
      (main bus N).length < (main bus (N + 1)).length := by
  have hlen : (main_startup bus).length = 9 := rfl
  have hc := loop_actions_counts bus N
  refine ⟨main_length bus N, ?_, ?_, ?_, ?_, rfl, ?_⟩
  · intro k hk
    rw [main_block bus N k hk, lis3dh_read_xyz_value]
    simp [pass_actions, pass_line, fmt_xyz, read_addr_write, read_six]
  · rw [main_eq_loop_actions, List.drop_left' hlen]; exact hc.1
  · rw [main_eq_loop_actions, List.drop_left' hlen]; exact hc.2.1
  · rw [main_eq_loop_actions, List.drop_left' hlen]; exact hc.2.2.1
  · rw [main_length, main_length]; omega

/-- C9 at a concrete input: the second pass (`k = 1`) of two on `quietBus`. -/
theorem C9_loop_passes_witness :
    1 < 2 ∧ ((main quietBus 2).drop (9 + 4 * 1)).take 4 =
      [Action.i2c_write_blocking i2c_inst_t.i2c0 0x18 [0xA8] true,
       Action.i2c_read_blocking i2c_inst_t.i2c0 0x18 6 false,
       Action.printf "0,0,0\n",
       Action.sleep_ms 100] :=
  ⟨by decide, (C9_loop_passes quietBus 2).2.1 1 (by decide)⟩

/-- C10: each of the three values `lis3dh_read_xyz` stores lies in the signed
10-bit range `-512 .. 511`.  Both bounds are attained by stored values: when
the bus hands back the pairs `[0x00, 0x80]` the routine stores -512 in every
slot, and with the pairs `[0xFF, 0x7F]` it stores 511.  The stored values do
not depend on the six low bits of the low bytes: on a bus whose buffers have
each low byte replaced by `lo & 0xC0` the routine stores the same `x`, `y`,
`z`; for instance the buffer `FF 7F 3F 00 7F 80` stores what
`C0 7F 00 00 40 80` stores, namely 511, 0 and -511. -/
theorem C10_ten_bit_range (bus : Bus) (i2c : i2c_inst_t) (t : Trace) :
    (-512 ≤ (lis3dh_read_xyz bus i2c t).1.x ∧ (lis3dh_read_xyz bus i2c t).1.x ≤ 511) ∧
      (-512 ≤ (lis3dh_read_xyz bus i2c t).1.y ∧ (lis3dh_read_xyz bus i2c t).1.y ≤ 511) ∧
      (-512 ≤ (lis3dh_read_xyz bus i2c t).1.z ∧ (lis3dh_read_xyz bus i2c t).1.z ≤ 511) ∧
      (lis3dh_read_xyz (constBus ⟨0x00, 0x80, 0x00, 0x80, 0x00, 0x80⟩) i2c t).1 =
        ⟨-512, -512, -512⟩ ∧
      (lis3dh_read_xyz (constBus ⟨0xFF, 0x7F, 0xFF, 0x7F, 0xFF, 0x7F⟩) i2c t).1 =
        ⟨511, 511, 511⟩ ∧
      (lis3dh_read_xyz (mask_bus bus) i2c t).1 = (lis3dh_read_xyz bus i2c t).1 ∧
      (mask_bus (constBus ⟨0xFF, 0x7F, 0x3F, 0x00, 0x7F, 0x80⟩)).read_buf t =
        ⟨0xC0, 0x7F, 0x00, 0x00, 0x40, 0x80⟩ ∧
      (lis3dh_read_xyz (constBus ⟨0xFF, 0x7F, 0x3F, 0x00, 0x7F, 0x80⟩) i2c t).1 =
        ⟨511, 0, -511⟩ ∧
      (lis3dh_read_xyz (constBus ⟨0xC0, 0x7F, 0x00, 0x00, 0x40, 0x80⟩) i2c t).1 =
        ⟨511, 0, -511⟩ := by
  have hlow : decode_xyz ⟨0x00, 0x80, 0x00, 0x80, 0x00, 0x80⟩ = ⟨-512, -512, -512⟩ := by
    decide
  have hhigh : decode_xyz ⟨0xFF, 0x7F, 0xFF, 0x7F, 0xFF, 0x7F⟩ = ⟨511, 511, 511⟩ := by
    decide
  have hm : mask_buffer ⟨0xFF, 0x7F, 0x3F, 0x00, 0x7F, 0x80⟩ =
      ⟨0xC0, 0x7F, 0x00, 0x00, 0x40, 0x80⟩ := by decide
  have h1 : decode_xyz ⟨0xFF, 0x7F, 0x3F, 0x00, 0x7F, 0x80⟩ = ⟨511, 0, -511⟩ := by decide
  have h2 : decode_xyz ⟨0xC0, 0x7F, 0x00, 0x00, 0x40, 0x80⟩ = ⟨511, 0, -511⟩ := by decide
  have hmask : ∀ b : Buffer6, decode_xyz (mask_buffer b) = decode_xyz b := by
    intro b
    simp only [decode_xyz, mask_buffer, decode_axis_mask]
  simp only [lis3dh_read_xyz_fst]
  refine ⟨decode_axis_bounds _ _, decode_axis_bounds _ _, decode_axis_bounds _ _,
    hlow, hhigh, hmask _, hm, h1, h2⟩

end Lis3dh
